import Mathlib

/-!
Verification of the `checked_sum` crate.

The crate exposes two abstractions:

* `CheckedAdd::checked_add(&self, &Self) -> Option<Self>` — overflow-checked
  addition, implemented (via the `impl_checked_add!` macro) for all primitive
  integer types by delegating to the standard library's `checked_add`, which
  returns the machine sum when it equals the mathematical sum and `None` when
  the addition wrapped.
* `CheckedSum::checked_sum(self) -> Option<T>` — implemented for any iterator
  as `self.try_fold(T::default(), |acc, value| acc.checked_add(&value))`.

We embed machine integers shallowly: an unsigned `w`-bit value is a `Nat`
taken modulo `2 ^ w`, a signed `w`-bit value is an `Int` wrapped into
`[-2^(w-1), 2^(w-1) - 1]` by two's-complement reduction.  `checked_add`
compares the wrapped machine sum with the exact mathematical sum, exactly as
the hardware overflow flag does, and the iterator fold is embedded as the
short-circuiting `try_fold` recursion over a `List`.
-/

/-- Unsigned `w`-bit wraparound: the machine result of an addition is the
mathematical result reduced modulo `2 ^ w`. -/
def u_wrap (w : Nat) (x : Nat) : Nat := x % 2 ^ w

/-- `u8::MAX`-style bound: the largest unsigned `w`-bit value. -/
def u_max (w : Nat) : Nat := 2 ^ w - 1

/-- Signed `w`-bit two's-complement wraparound into `[-2^(w-1), 2^(w-1)-1]`. -/
def i_wrap (w : Nat) (x : Int) : Int :=
  (x + 2 ^ (w - 1)) % 2 ^ w - 2 ^ (w - 1)

/-- `i8::MIN`-style bound: the smallest signed `w`-bit value. -/
def i_min (w : Nat) : Int := -(2 ^ (w - 1))

/-- `i8::MAX`-style bound: the largest signed `w`-bit value. -/
def i_max (w : Nat) : Int := 2 ^ (w - 1) - 1

/-- Embedding of `<$t>::checked_add` for the unsigned primitives
(`u8, u16, u32, u64, u128, usize` at their respective widths `w`): the
wrapped machine sum is returned when it equals the exact sum, otherwise the
addition overflowed and `None` is returned. -/
def u_checked_add (w : Nat) (a b : Nat) : Option Nat :=
  if u_wrap w (a + b) = a + b then some (u_wrap w (a + b)) else none

/-- Embedding of `<$t>::checked_add` for the signed primitives
(`i8, i16, i32, i64, i128, isize` at their respective widths `w`). -/
def i_checked_add (w : Nat) (a b : Int) : Option Int :=
  if i_wrap w (a + b) = a + b then some (i_wrap w (a + b)) else none

/-- Embedding of `Iterator::try_fold` with an `Option`-returning closure:
apply `f` to the accumulator and the next element, stop with `none` the
moment a step fails, otherwise continue with the updated accumulator. -/
def try_fold {α β : Type} (f : α → β → Option α) : α → List β → Option α
  | acc, [] => some acc
  | acc, x :: rest =>
    match f acc x with
    | some acc2 => try_fold f acc2 rest
    | none => none

/-- `<T as Default>::default()` for the unsigned integer primitives. -/
def u_default : Nat := 0

/-- `<T as Default>::default()` for the signed integer primitives. -/
def i_default : Int := 0

/-- Embedding of `CheckedSum::checked_sum` at an unsigned element type:
`self.try_fold(T::default(), |acc, value| acc.checked_add(&value))`. -/
def u_checked_sum (w : Nat) (l : List Nat) : Option Nat :=
  try_fold (u_checked_add w) u_default l

/-- Embedding of `CheckedSum::checked_sum` at a signed element type. -/
def i_checked_sum (w : Nat) (l : List Int) : Option Int :=
  try_fold (i_checked_add w) i_default l

/-- Modelled from the spec (section 4.2 algorithm): "initialize an
accumulator to the identity value; for each element in sequence order,
replace the accumulator with `checked_add(accumulator, element)`; if that
operation ever returns absent, abandon the operation immediately and return
absent …; if the sequence is exhausted without failure, return the final
accumulator wrapped as present."  Used only to compare the code's fold
against the spec's wording. -/
def spec_fold_loop {α β : Type} (f : α → β → Option α) : α → List β → Option α
  | acc, [] => some acc
  | acc, x :: rest =>
    match f acc x with
    | none => none
    | some acc2 => spec_fold_loop f acc2 rest

-- ### Basic facts about the wraparound embeddings

theorem u_wrap_eq_self_iff (w : Nat) (x : Nat) : u_wrap w x = x ↔ x < 2 ^ w := by
  unfold u_wrap
  constructor
  · intro h
    have hpos : 0 < 2 ^ w := Nat.pow_pos (by norm_num)
    have := Nat.mod_lt x hpos
    omega
  · exact Nat.mod_eq_of_lt

theorem int_emod_eq_self_iff (x n : Int) (hn : 0 < n) : x % n = x ↔ 0 ≤ x ∧ x < n := by
  constructor
  · intro h
    rw [← h]
    exact ⟨Int.emod_nonneg x (by omega), Int.emod_lt_of_pos x hn⟩
  · intro h
    exact Int.emod_eq_of_lt h.1 h.2

theorem two_pow_split (w : Nat) (hw : 0 < w) : (2 : Int) ^ w = 2 ^ (w - 1) + 2 ^ (w - 1) := by
  have h : w = (w - 1) + 1 := by omega
  conv_lhs => rw [h]
  rw [pow_succ]
  ring

theorem i_wrap_eq_self_iff (w : Nat) (hw : 0 < w) (x : Int) :
    i_wrap w x = x ↔ i_min w ≤ x ∧ x ≤ i_max w := by
  have hpos : (0 : Int) < 2 ^ w := by positivity
  have hsplit := two_pow_split w hw
  unfold i_wrap i_min i_max
  constructor
  · intro h
    have h2 : (x + 2 ^ (w - 1)) % 2 ^ w = x + 2 ^ (w - 1) := by omega
    have := (int_emod_eq_self_iff (x + 2 ^ (w - 1)) (2 ^ w) hpos).1 h2
    omega
  · intro h
    have h2 : (x + 2 ^ (w - 1)) % 2 ^ w = x + 2 ^ (w - 1) :=
      (int_emod_eq_self_iff (x + 2 ^ (w - 1)) (2 ^ w) hpos).2 (by omega)
    omega

/-- `u_checked_add` in range-test form. -/
theorem u_checked_add_eq (w : Nat) (a b : Nat) :
    u_checked_add w a b = if a + b < 2 ^ w then some (a + b) else none := by
  unfold u_checked_add
  by_cases h : a + b < 2 ^ w
  · have hw := (u_wrap_eq_self_iff w (a + b)).2 h
    simp [hw, h]
  · have hw : u_wrap w (a + b) ≠ a + b := fun hc => h ((u_wrap_eq_self_iff w (a + b)).1 hc)
    simp [hw, h]

/-- `i_checked_add` in range-test form. -/
theorem i_checked_add_eq (w : Nat) (hw : 0 < w) (a b : Int) :
    i_checked_add w a b =
      if i_min w ≤ a + b ∧ a + b ≤ i_max w then some (a + b) else none := by
  unfold i_checked_add
  by_cases h : i_min w ≤ a + b ∧ a + b ≤ i_max w
  · have hwr := (i_wrap_eq_self_iff w hw (a + b)).2 h
    simp [hwr, h]
  · have hwr : i_wrap w (a + b) ≠ a + b :=
      fun hc => h ((i_wrap_eq_self_iff w hw (a + b)).1 hc)
    simp [hwr, h]

-- ### The fold, in closed form

theorem try_fold_cons {α β : Type} (f : α → β → Option α) (acc : α) (x : β) (xs : List β) :
    try_fold f acc (x :: xs) =
      match f acc x with
      | some acc2 => try_fold f acc2 xs
      | none => none := by
  rfl

theorem try_fold_cons_some {α β : Type} (f : α → β → Option α) (acc acc2 : α) (x : β)
    (xs : List β) (h : f acc x = some acc2) :
    try_fold f acc (x :: xs) = try_fold f acc2 xs := by
  rw [try_fold_cons, h]

theorem try_fold_cons_none {α β : Type} (f : α → β → Option α) (acc : α) (x : β)
    (xs : List β) (h : f acc x = none) :
    try_fold f acc (x :: xs) = none := by
  rw [try_fold_cons, h]

/-- Unsigned master lemma: starting from any in-range accumulator, the fold
succeeds exactly when the total (exact) sum stays below `2 ^ w`, because
unsigned prefix sums are monotone. -/
theorem u_try_fold_eq (w : Nat) (l : List Nat) :
    ∀ acc : Nat, acc < 2 ^ w →
      try_fold (u_checked_add w) acc l =
        if acc + l.sum < 2 ^ w then some (acc + l.sum) else none := by
  induction l with
  | nil =>
    intro acc h
    simp [try_fold, h]
  | cons x xs ih =>
    intro acc h
    by_cases hx : acc + x < 2 ^ w
    · have hstep : u_checked_add w acc x = some (acc + x) := by
        rw [u_checked_add_eq, if_pos hx]
      rw [try_fold_cons_some (u_checked_add w) acc (acc + x) x xs hstep]
      rw [ih (acc + x) hx]
      simp only [List.sum_cons]
      by_cases hs : acc + x + xs.sum < 2 ^ w
      · rw [if_pos hs, if_pos (by omega)]
        congr 1
        omega
      · rw [if_neg hs, if_neg (by omega)]
    · have hstep : u_checked_add w acc x = none := by
        rw [u_checked_add_eq, if_neg hx]
      rw [try_fold_cons_none (u_checked_add w) acc x xs hstep]
      simp only [List.sum_cons]
      rw [if_neg (by omega)]

/-- `checked_sum` at an unsigned type, in closed form: the exact sum when it
fits, `none` otherwise. -/
theorem u_checked_sum_eq (w : Nat) (l : List Nat) :
    u_checked_sum w l = if l.sum ≤ u_max w then some l.sum else none := by
  have hpos : 0 < 2 ^ w := Nat.pow_pos (by norm_num)
  have h := u_try_fold_eq w l 0 hpos
  unfold u_checked_sum u_default u_max
  rw [h]
  simp only [Nat.zero_add]
  by_cases hs : l.sum < 2 ^ w
  · rw [if_pos hs, if_pos (by omega)]
  · rw [if_neg hs, if_neg (by omega)]

/-- Signed master lemma: starting from any in-range accumulator, the fold
succeeds exactly when every accumulator-relative prefix sum stays in range,
and then it returns the exact total. -/
theorem i_try_fold_eq (w : Nat) (hw : 0 < w) (l : List Int) :
    ∀ acc : Int, i_min w ≤ acc → acc ≤ i_max w →
      try_fold (i_checked_add w) acc l =
        if ∀ n, n ≤ l.length →
            i_min w ≤ acc + (l.take n).sum ∧ acc + (l.take n).sum ≤ i_max w
        then some (acc + l.sum) else none := by
  induction l with
  | nil =>
    intro acc h1 h2
    rw [if_pos]
    · simp [try_fold]
    · intro n hn
      simp only [List.length_nil] at hn
      have : n = 0 := by omega
      subst this
      simpa using ⟨h1, h2⟩
  | cons x xs ih =>
    intro acc h1 h2
    by_cases hx : i_min w ≤ acc + x ∧ acc + x ≤ i_max w
    · have hstep : i_checked_add w acc x = some (acc + x) := by
        rw [i_checked_add_eq w hw, if_pos hx]
      rw [try_fold_cons_some (i_checked_add w) acc (acc + x) x xs hstep]
      rw [ih (acc + x) hx.1 hx.2]
      have hiff : (∀ n, n ≤ xs.length →
            i_min w ≤ acc + x + (xs.take n).sum ∧ acc + x + (xs.take n).sum ≤ i_max w) ↔
          (∀ n, n ≤ (x :: xs).length →
            i_min w ≤ acc + ((x :: xs).take n).sum ∧ acc + ((x :: xs).take n).sum ≤ i_max w) := by
        constructor
        · intro H n hn
          match n with
          | 0 => simpa using ⟨h1, h2⟩
          | m + 1 =>
            have hm : m ≤ xs.length := by simpa using hn
            have := H m hm
            simp only [List.take_succ_cons, List.sum_cons]
            constructor <;> [skip; skip] <;> omega
        · intro H n hn
          have := H (n + 1) (by simpa using hn)
          simp only [List.take_succ_cons, List.sum_cons] at this
          constructor <;> omega
      by_cases hc : ∀ n, n ≤ (x :: xs).length →
          i_min w ≤ acc + ((x :: xs).take n).sum ∧ acc + ((x :: xs).take n).sum ≤ i_max w
      · rw [if_pos (hiff.2 hc), if_pos hc]
        simp only [List.sum_cons]
        congr 1
        ring
      · rw [if_neg (fun H => hc (hiff.1 H)), if_neg hc]
    · have hstep : i_checked_add w acc x = none := by
        rw [i_checked_add_eq w hw, if_neg hx]
      rw [try_fold_cons_none (i_checked_add w) acc x xs hstep]
      rw [if_neg]
      intro H
      have := H 1 (by simp)
      simp only [List.take_succ_cons, List.take_zero, List.sum_cons, List.sum_nil,
        add_zero] at this
      exact hx this

/-- `checked_sum` at a signed type, in closed form: the exact sum when every
prefix sum (computed from zero, left to right) stays in range, else `none`. -/
theorem i_checked_sum_eq (w : Nat) (hw : 0 < w) (l : List Int) :
    i_checked_sum w l =
      if ∀ n, n ≤ l.length →
          i_min w ≤ (l.take n).sum ∧ (l.take n).sum ≤ i_max w
      then some l.sum else none := by
  have hp : (0 : Int) < 2 ^ (w - 1) := by positivity
  have hmin : i_min w ≤ 0 := by
    unfold i_min
    omega
  have hmax : (0 : Int) ≤ i_max w := by
    unfold i_max
    omega
  have h := i_try_fold_eq w hw l 0 hmin hmax
  unfold i_checked_sum i_default
  rw [h]
  simp only [Int.zero_add]

/-- The code's `try_fold` and the fold described word-for-word by the spec
agree on every closure, accumulator and sequence. -/
theorem try_fold_eq_spec_fold_loop {α β : Type} (f : α → β → Option α) (l : List β) :
    ∀ acc : α, try_fold f acc l = spec_fold_loop f acc l := by
  induction l with
  | nil => intro acc; rfl
  | cons x xs ih =>
    intro acc
    rw [try_fold_cons]
    cases hstep : f acc x with
    | none => simp only [spec_fold_loop, hstep]
    | some acc2 => simp only [spec_fold_loop, hstep, ih acc2]

/-- A prefix of a list of naturals sums to at most the whole list. -/
theorem sum_take_le (l : List Nat) (n : Nat) : (l.take n).sum ≤ l.sum := by
  have h := List.sum_take_add_sum_drop l n
  omega

-- ### The claims

/-- C1: for every primitive width (unsigned `u8 … u128, usize` and signed
`i8 … i128, isize`, all captured by the width parameter `w`) and all values
`a`, `b`, `checked_add` returns `some` of the exact mathematical sum exactly
when that sum lies within `[MIN, MAX]` of the type, and `none` when it
exceeds `MAX` or (signed case) falls below `MIN`. -/
theorem claim_C1 :
    (∀ (w : Nat) (a b : Nat),
      (a + b ≤ u_max w → u_checked_add w a b = some (a + b)) ∧
      (u_max w < a + b → u_checked_add w a b = none)) ∧
    (∀ (w : Nat), 0 < w → ∀ a b : Int,
      (i_min w ≤ a + b → a + b ≤ i_max w → i_checked_add w a b = some (a + b)) ∧
      (i_max w < a + b ∨ a + b < i_min w → i_checked_add w a b = none)) := by
  constructor
  · intro w a b
    have hpos : 0 < 2 ^ w := Nat.pow_pos (by norm_num)
    rw [u_checked_add_eq]
    unfold u_max
    constructor
    · intro h
      rw [if_pos (by omega)]
    · intro h
      rw [if_neg (by omega)]
  · intro w hw a b
    rw [i_checked_add_eq w hw]
    constructor
    · intro h1 h2
      rw [if_pos ⟨h1, h2⟩]
    · intro h
      rw [if_neg (by omega)]

/-- C1 witness at `w = 8`: `200 + 55` fits in `u8`, `200 + 56` does not;
`100 + 27` fits in `i8`, `100 + 28` does not, `-100 + -29` underflows. -/
theorem claim_C1_witness :
    u_checked_add 8 200 55 = some 255 ∧ u_checked_add 8 200 56 = none ∧
    i_checked_add 8 100 27 = some 127 ∧ i_checked_add 8 100 28 = none ∧
    i_checked_add 8 (-100) (-29) = none := by
  refine ⟨(claim_C1.1 8 200 55).1 (by decide), (claim_C1.1 8 200 56).2 (by decide),
    (claim_C1.2 8 (by decide) 100 27).1 (by decide) (by decide),
    (claim_C1.2 8 (by decide) 100 28).2 (by decide),
    (claim_C1.2 8 (by decide) (-100) (-29)).2 (by decide)⟩

/-- C2: `checked_sum` equals the short-circuiting left fold the spec
describes (accumulator starts at the identity, updated by `checked_add` in
sequence order), and the fold genuinely short-circuits: as soon as one step
returns `none`, the result is `none` no matter what elements follow. -/
theorem claim_C2 :
    (∀ (w : Nat) (l : List Nat),
      u_checked_sum w l = spec_fold_loop (u_checked_add w) u_default l) ∧
    (∀ (w : Nat) (l : List Int),
      i_checked_sum w l = spec_fold_loop (i_checked_add w) i_default l) ∧
    (∀ (α β : Type) (f : α → β → Option α) (acc : α) (x : β) (xs : List β),
      f acc x = none → try_fold f acc (x :: xs) = none) := by
  refine ⟨fun w l => try_fold_eq_spec_fold_loop (u_checked_add w) l u_default,
    fun w l => try_fold_eq_spec_fold_loop (i_checked_add w) l i_default,
    fun α β f acc x xs h => try_fold_cons_none f acc x xs h⟩

/-- C2 witness: the first `u8` addition `255 + 1` fails, so the fold over
`255 :: 1 :: [7]` is `none` without looking at the tail. -/
theorem claim_C2_witness :
    try_fold (u_checked_add 8) 255 (1 :: [7]) = none :=
  claim_C2.2.2 Nat Nat (u_checked_add 8) 255 1 [7] (by decide)

/-- C7: `checked_sum` of the empty sequence is `some` of the identity value
(zero), never `none`, at unsigned and signed types alike. -/
theorem claim_C7 :
    (∀ w : Nat, u_checked_sum w [] = some 0) ∧
    (∀ w : Nat, i_checked_sum w [] = some 0) :=
  ⟨fun _ => rfl, fun _ => rfl⟩

/-- C3 counterexample: over `i8`, the sequence `[100, 100, -100]` has exact
sum `100`, well inside `[-128, 127]`, yet `checked_sum` returns `none`
because the intermediate sum `100 + 100` overflows. -/
theorem claim_C3_cex :
    ([100, 100, -100] : List Int).sum = 100 ∧
    i_min 8 ≤ 100 ∧ (100 : Int) ≤ i_max 8 ∧
    i_checked_sum 8 [100, 100, -100] = none := by
  refine ⟨by decide, by decide, by decide, by decide⟩

/-- C3 (amended): for unsigned types the claim holds as stated — whenever
the exact sum fits below `MAX`, `checked_sum` returns `some` of it; for
signed types it holds under the extra (necessary) condition that every
left-to-right prefix sum stays within `[MIN, MAX]`. -/
theorem claim_C3 :
    (∀ (w : Nat) (l : List Nat), l.sum ≤ u_max w → u_checked_sum w l = some l.sum) ∧
    (∀ (w : Nat), 0 < w → ∀ l : List Int,
      (∀ n, n ≤ l.length → i_min w ≤ (l.take n).sum ∧ (l.take n).sum ≤ i_max w) →
      i_checked_sum w l = some l.sum) := by
  constructor
  · intro w l h
    rw [u_checked_sum_eq, if_pos h]
  · intro w hw l h
    rw [i_checked_sum_eq w hw, if_pos h]

/-- C3 witness: `[1,2,3,4,5]` over `u8` sums to `15`; `[100, -100]` over
`i8` keeps every prefix sum in range and returns the exact total `0`. -/
theorem claim_C3_witness :
    u_checked_sum 8 [1, 2, 3, 4, 5] = some 15 ∧
    i_checked_sum 8 [100, -100] = some 0 := by
  constructor
  · exact (claim_C3.1 8 [1, 2, 3, 4, 5] (by decide)).trans (by decide)
  · exact (claim_C3.2 8 (by decide) [100, -100] (by decide)).trans (by decide)

/-- C4: whenever the exact mathematical sum of the sequence exceeds `MAX`
(unsigned or signed) or falls below `MIN` (signed), `checked_sum` returns
`none`. -/
theorem claim_C4 :
    (∀ (w : Nat) (l : List Nat), u_max w < l.sum → u_checked_sum w l = none) ∧
    (∀ (w : Nat), 0 < w → ∀ l : List Int,
      i_max w < l.sum ∨ l.sum < i_min w → i_checked_sum w l = none) := by
  constructor
  · intro w l h
    rw [u_checked_sum_eq, if_neg (by omega)]
  · intro w hw l h
    rw [i_checked_sum_eq w hw, if_neg]
    intro H
    have := H l.length le_rfl
    rw [List.take_length] at this
    omega

/-- C4 witness at `w = 8`: `[255, 1]` overflows `u8`; `[100, 28]` overflows
`i8` and `[-100, -29]` underflows it. -/
theorem claim_C4_witness :
    u_checked_sum 8 [255, 1] = none ∧
    i_checked_sum 8 [100, 28] = none ∧
    i_checked_sum 8 [-100, -29] = none := by
  refine ⟨claim_C4.1 8 [255, 1] (by decide),
    claim_C4.2 8 (by decide) [100, 28] (Or.inl (by decide)),
    claim_C4.2 8 (by decide) [-100, -29] (Or.inr (by decide))⟩

/-- C5 counterexample: over `i8`, `[100, 100, -100]` and its permutation
`[100, -100, 100]` give different results (`none` versus `some 100`), so
`checked_sum` is not permutation-invariant on signed types. -/
theorem claim_C5_cex :
    ([100, 100, -100] : List Int).Perm [100, -100, 100] ∧
    i_checked_sum 8 [100, 100, -100] = none ∧
    i_checked_sum 8 [100, -100, 100] = some 100 := by
  refine ⟨List.Perm.cons 100 (List.Perm.swap (-100) 100 []), by decide, by decide⟩

/-- C5 (amended): for unsigned types `checked_sum` is permutation-invariant
(both orders return the same `some` value or both return `none`); for signed
types the final present/absent outcome can depend on the order, as the
counterexample shows. -/
theorem claim_C5 (w : Nat) (l l' : List Nat) (h : l.Perm l') :
    u_checked_sum w l = u_checked_sum w l' := by
  rw [u_checked_sum_eq, u_checked_sum_eq, h.sum_eq]

/-- C5 witness: swapping the elements of `[1, 2]` over `u8` leaves the
result unchanged. -/
theorem claim_C5_witness : u_checked_sum 8 [1, 2] = u_checked_sum 8 [2, 1] :=
  claim_C5 8 [1, 2] [2, 1] (List.Perm.swap 2 1 [])

/-- C6 counterexample: failure-propagating associativity fails for signed
types: over `i8`, `(100 checked+ 100) checked+ (-100)` is `none` while
`100 checked+ (100 checked+ (-100))` is `some 100`. -/
theorem claim_C6_cex :
    (i_checked_add 8 100 100).bind (fun s => i_checked_add 8 s (-100)) = none ∧
    (i_checked_add 8 100 (-100)).bind (fun s => i_checked_add 8 100 s) = some 100 := by
  refine ⟨by decide, by decide⟩

/-- C6 (amended): `checked_add` is commutative at every width, signed and
unsigned, and the identity law `checked_add(identity, x) = some x` holds for
every representable `x`; failure-propagating associativity holds for the
unsigned types, but fails for signed types (see the counterexample), where
one grouping can overflow at an intermediate step while the other does not. -/
theorem claim_C6 :
    (∀ (w : Nat) (a b : Nat), u_checked_add w a b = u_checked_add w b a) ∧
    (∀ (w : Nat) (a b : Int), i_checked_add w a b = i_checked_add w b a) ∧
    (∀ (w : Nat) (x : Nat), x ≤ u_max w → u_checked_add w u_default x = some x) ∧
    (∀ (w : Nat), 0 < w → ∀ x : Int, i_min w ≤ x → x ≤ i_max w →
      i_checked_add w i_default x = some x) ∧
    (∀ (w : Nat) (a b c : Nat),
      (u_checked_add w a b).bind (fun s => u_checked_add w s c) =
        (u_checked_add w b c).bind (fun s => u_checked_add w a s)) := by
  refine ⟨?_, ?_, ?_, ?_, ?_⟩
  · intro w a b
    unfold u_checked_add
    rw [Nat.add_comm b a]
  · intro w a b
    unfold i_checked_add
    rw [Int.add_comm b a]
  · intro w x h
    have hpos : 0 < 2 ^ w := Nat.pow_pos (by norm_num)
    unfold u_default u_max at *
    rw [u_checked_add_eq, if_pos (by omega)]
    rw [Nat.zero_add]
  · intro w hw x h1 h2
    unfold i_default
    rw [i_checked_add_eq w hw, if_pos ⟨by simpa using h1, by simpa using h2⟩]
    rw [Int.zero_add]
  · intro w a b c
    simp only [u_checked_add_eq]
    by_cases h1 : a + b < 2 ^ w
    · rw [if_pos h1, Option.some_bind]
      by_cases h2 : b + c < 2 ^ w
      · rw [if_pos h2, Option.some_bind]
        by_cases h3 : a + b + c < 2 ^ w
        · rw [if_pos h3, if_pos (by omega)]
          congr 1
          omega
        · rw [if_neg h3, if_neg (by omega)]
      · rw [if_neg h2, Option.none_bind, if_neg (by omega)]
    · rw [if_neg h1, Option.none_bind]
      by_cases h2 : b + c < 2 ^ w
      · rw [if_pos h2, Option.some_bind, if_neg (by omega)]
      · rw [if_neg h2, Option.none_bind]

/-- C6 witness at `w = 8`: commutativity at `(200, 55)` and `(100, -100)`,
the identity laws at `255` and `-128`, and unsigned associativity at
`(100, 100, 55)`. -/
theorem claim_C6_witness :
    u_checked_add 8 200 55 = u_checked_add 8 55 200 ∧
    i_checked_add 8 100 (-100) = i_checked_add 8 (-100) 100 ∧
    u_checked_add 8 u_default 255 = some 255 ∧
    i_checked_add 8 i_default (-128) = some (-128) ∧
    (u_checked_add 8 100 100).bind (fun s => u_checked_add 8 s 55) =
      (u_checked_add 8 100 55).bind (fun s => u_checked_add 8 100 s) := by
  refine ⟨claim_C6.1 8 200 55, claim_C6.2.1 8 100 (-100),
    claim_C6.2.2.1 8 255 (by decide),
    claim_C6.2.2.2.1 8 (by decide) (-128) (by decide) (by decide),
    claim_C6.2.2.2.2 8 100 100 55⟩

/-- C8: summing the one-element sequence `[MAX]` returns `some MAX`: adding
the identity to the largest representable value is not an overflow. -/
theorem claim_C8 :
    (∀ w : Nat, u_checked_sum w [u_max w] = some (u_max w)) ∧
    (∀ w : Nat, 0 < w → i_checked_sum w [i_max w] = some (i_max w)) := by
  constructor
  · intro w
    rw [u_checked_sum_eq]
    simp only [List.sum_cons, List.sum_nil, Nat.add_zero]
    rw [if_pos le_rfl]
  · intro w hw
    have hp : (0 : Int) < 2 ^ (w - 1) := by positivity
    rw [i_checked_sum_eq w hw]
    simp only [List.sum_cons, List.sum_nil, Int.add_zero]
    rw [if_pos]
    intro n hn
    simp only [List.length_cons, List.length_nil] at hn
    match n with
    | 0 =>
      simp only [List.take_zero, List.sum_nil]
      unfold i_min i_max
      omega
    | 1 =>
      simp only [List.take_succ_cons, List.take_zero, List.sum_cons, List.sum_nil,
        Int.add_zero]
      unfold i_min i_max
      omega

/-- C8 witness at `w = 8`: `checked_sum([255]) = Some(255)` for `u8` and
`checked_sum([127]) = Some(127)` for `i8`. -/
theorem claim_C8_witness :
    u_checked_sum 8 [255] = some 255 ∧ i_checked_sum 8 [127] = some 127 := by
  have h1 := claim_C8.1 8
  have h2 := claim_C8.2 8 (by decide)
  have e1 : u_max 8 = 255 := by decide
  have e2 : i_max 8 = 127 := by decide
  rw [e1] at h1
  rw [e2] at h2
  exact ⟨h1, h2⟩

/-- C9: `checked_add` is total and never wraps silently: on every pair of
inputs, extremes included, it returns either `some` of the exact
mathematical sum or `none`; consequently `checked_sum` on any finite
sequence returns either `some` value or `none`. -/
theorem claim_C9 :
    (∀ (w : Nat) (a b : Nat),
      u_checked_add w a b = some (a + b) ∨ u_checked_add w a b = none) ∧
    (∀ (w : Nat) (a b : Int),
      i_checked_add w a b = some (a + b) ∨ i_checked_add w a b = none) ∧
    (∀ (w : Nat) (l : List Nat),
      (∃ v, u_checked_sum w l = some v) ∨ u_checked_sum w l = none) ∧
    (∀ (w : Nat) (l : List Int),
      (∃ v, i_checked_sum w l = some v) ∨ i_checked_sum w l = none) := by
  refine ⟨?_, ?_, ?_, ?_⟩
  · intro w a b
    unfold u_checked_add
    by_cases h : u_wrap w (a + b) = a + b
    · rw [if_pos h, h]
      exact Or.inl rfl
    · rw [if_neg h]
      exact Or.inr rfl
  · intro w a b
    unfold i_checked_add
    by_cases h : i_wrap w (a + b) = a + b
    · rw [if_pos h, h]
      exact Or.inl rfl
    · rw [if_neg h]
      exact Or.inr rfl
  · intro w l
    cases h : u_checked_sum w l with
    | some v => exact Or.inl ⟨v, rfl⟩
    | none => exact Or.inr rfl
  · intro w l
    cases h : i_checked_sum w l with
    | some v => exact Or.inl ⟨v, rfl⟩
    | none => exact Or.inr rfl

/-- C10: `checked_sum` returns `some` exactly when every left-to-right
prefix sum (computed from zero in exact arithmetic) lies within
`[MIN, MAX]`, and then the value is the exact sum of the whole sequence;
otherwise it returns `none`.  For unsigned types the prefix condition
collapses to the total fitting; for signed types it is strictly stronger. -/
theorem claim_C10 :
    (∀ (w : Nat) (l : List Nat),
      u_checked_sum w l =
        if ∀ n, n ≤ l.length → (l.take n).sum ≤ u_max w then some l.sum else none) ∧
    (∀ (w : Nat), 0 < w → ∀ l : List Int,
      i_checked_sum w l =
        if ∀ n, n ≤ l.length → i_min w ≤ (l.take n).sum ∧ (l.take n).sum ≤ i_max w
        then some l.sum else none) := by
  constructor
  · intro w l
    rw [u_checked_sum_eq]
    by_cases h : l.sum ≤ u_max w
    · rw [if_pos h, if_pos]
      intro n hn
      exact le_trans (sum_take_le l n) h
    · rw [if_neg h, if_neg]
      intro H
      have := H l.length le_rfl
      rw [List.take_length] at this
      exact h this
  · intro w hw l
    exact i_checked_sum_eq w hw l

/-- C10 witness at `w = 8`: `[255, 1]` has an out-of-range prefix sum over
`u8`, so `none`; `[100, 100, -100]` has one over `i8`, so `none`; while
`[100, -100]` keeps all prefixes in range over `i8` and yields `some 0`. -/
theorem claim_C10_witness :
    u_checked_sum 8 [255, 1] = none ∧
    i_checked_sum 8 [100, 100, -100] = none ∧
    i_checked_sum 8 [100, -100, 50] = some 50 := by
  refine ⟨(claim_C10.1 8 [255, 1]).trans (by decide),
    (claim_C10.2 8 (by decide) [100, 100, -100]).trans (by decide),
    (claim_C10.2 8 (by decide) [100, -100, 50]).trans (by decide)⟩
